import Mathlib

/-!
Verification of the data-pipeline core of `flash/data/batch.py`
(`_Sequential`, `_PreProcessor`, `_PostProcessor`, `default_uncollate`).

The Python values flowing through the pipeline are embedded as the
inductive type `PyVal`: tensors, strings, lists, tuples, namedtuples
(a tuple with a `_fields` attribute, remembered here by its type name),
mappings (insertion-ordered, as `dict`; keys restricted to strings, the
hashable keys actually used by the pipeline), plain integers and `None`.
A torch tensor is embedded as its shape together with its row-major
flat data (`Tensor`); tensor scalars are integers, which is enough for
every shape-shuffling operation the pipeline performs.

Python code that can raise is embedded in `Except String`; the string
is the exception's description.
-/

namespace Flash

/-- A torch tensor: shape and row-major flat data. A well-formed tensor
(`Tensor.wf`) has `shape.prod` scalars. -/
structure Tensor where
  shape : List Nat
  data : List Int
deriving DecidableEq, Repr

/-- A tensor is well formed when its flat data matches its shape. -/
def Tensor.wf (t : Tensor) : Prop := t.data.length = t.shape.prod

/-- `torch.unbind(t, 0)`: the slices of `t` along dimension 0. Raises
(`none`) on a 0-dimensional tensor. -/
def Tensor.unbind (t : Tensor) : Option (List Tensor) :=
  match t.shape with
  | [] => Option.none
  | n :: s =>
    Option.some ((List.range n).map
      (fun i => Tensor.mk s ((t.data.drop (i * s.prod)).take s.prod)))

/-- `t[i]`: the `i`-th slice of `t` along dimension 0 (torch indexing on
the first dimension). -/
def Tensor.slice0 (t : Tensor) (i : Nat) : Tensor :=
  Tensor.mk t.shape.tail ((t.data.drop (i * t.shape.tail.prod)).take t.shape.tail.prod)

/-- `torch.stack(ts)`: stacks tensors of equal shape along a new first
dimension (the collate of a list of sample tensors into a batch tensor). -/
def Tensor.stack (ts : List Tensor) : Tensor :=
  Tensor.mk (ts.length :: (ts.head?.elim [] Tensor.shape)) (ts.map Tensor.data).flatten

/-- A Python value as seen by the pipeline. -/
inductive PyVal where
  | tensor (t : Tensor)
  | str (s : String)
  | pylist (xs : List PyVal)
  | pytuple (xs : List PyVal)
  | namedtuple (ty : String) (xs : List PyVal)
  | mapping (ty : String) (es : List (String × PyVal))
  | int (n : Int)
  | none

/-- `iter(v)`: the sequence a `for` loop or `zip` draws from `v`, or
`none` when `v` is not iterable (`TypeError`). Iterating a tensor yields
its slices along dimension 0 (a 0-dimensional tensor is not iterable),
a string yields its characters, a mapping yields its keys. -/
def pyIter : PyVal → Option (List PyVal)
  | .tensor t => (Tensor.unbind t).map (List.map PyVal.tensor)
  | .str s => Option.some (s.data.map (fun c => PyVal.str (String.mk [c])))
  | .pylist xs => Option.some xs
  | .pytuple xs => Option.some xs
  | .namedtuple _ xs => Option.some xs
  | .mapping _ es => Option.some (es.map (fun e => PyVal.str e.1))
  | .int _ => Option.none
  | .none => Option.none

/-- Iterate every value in a list; `none` as soon as one is not
iterable (the `TypeError` that `zip(*vals)` raises). -/
def iterAll : List PyVal → Option (List (List PyVal))
  | [] => Option.some []
  | v :: vs =>
    match pyIter v, iterAll vs with
    | Option.some l, Option.some ls => Option.some (l :: ls)
    | _, _ => Option.none

/-- Number of rows `zip` produces from the given columns: the least
column length, and 0 for `zip()` of no arguments. -/
def minLen : List (List PyVal) → Nat
  | [] => 0
  | [l] => l.length
  | l :: l' :: ls => min l.length (minLen (l' :: ls))

/-- The rows of the transposition that `zip` performs on its columns. -/
def pyRows (cols : List (List PyVal)) : List (List PyVal) :=
  (List.range (minLen cols)).map (fun i => cols.map (fun l => l.getD i PyVal.none))

/-- `zip(*vals)` consumed into a list of rows; `none` is the
`TypeError` raised when some value is not iterable. -/
def pyZip (vals : List PyVal) : Option (List (List PyVal)) :=
  match iterAll vals with
  | Option.some cols => Option.some (pyRows cols)
  | Option.none => Option.none

mutual

/-- Termination measure for `default_uncollate`: tensors, strings and
scalars weigh 1; `zip`-transposing containers (mappings, namedtuples)
weigh one more than plain sequences so that the tuple of one row of the
transposition is strictly smaller than the container itself. -/
def psize : PyVal → Nat
  | .tensor _ => 1
  | .str _ => 1
  | .pylist xs => 1 + psizeL xs
  | .pytuple xs => 1 + psizeL xs
  | .namedtuple _ xs => 2 + psizeL xs
  | .mapping _ es => 2 + psizeE es
  | .int _ => 1
  | .none => 1

/-- Sum of `psize` over a list of values. -/
def psizeL : List PyVal → Nat
  | [] => 0
  | x :: xs => psize x + psizeL xs

/-- Sum of `psize` over the values of a list of entries. -/
def psizeE : List (String × PyVal) → Nat
  | [] => 0
  | e :: es => psize e.2 + psizeE es

end

theorem psize_pos (v : PyVal) : 1 ≤ psize v := by
  cases v <;> simp [psize] <;> omega

theorem psizeL_mem {x : PyVal} {xs : List PyVal} (h : x ∈ xs) : psize x ≤ psizeL xs := by
  induction xs with
  | nil => cases h
  | cons y ys ih =>
    rcases List.mem_cons.mp h with h | h
    · subst h; simp [psizeL]
    · have := ih h; simp [psizeL]; omega

theorem psizeE_map_snd (es : List (String × PyVal)) : psizeL (es.map Prod.snd) = psizeE es := by
  induction es with
  | nil => rfl
  | cons e es ih => simp [psizeL, psizeE, ih]

theorem pyIter_psize {v : PyVal} {l : List PyVal} (h : pyIter v = Option.some l)
    {x : PyVal} (hx : x ∈ l) : psize x ≤ psize v := by
  cases v with
  | tensor t =>
    simp [pyIter] at h
    obtain ⟨ts, _, rfl⟩ := h
    obtain ⟨u, _, rfl⟩ := List.mem_map.mp hx
    simp [psize]
  | str s =>
    simp [pyIter] at h
    subst h
    obtain ⟨c, _, rfl⟩ := List.mem_map.mp hx
    simp [psize]
  | pylist xs =>
    simp [pyIter] at h; subst h
    have := psizeL_mem hx; simp [psize]; omega
  | pytuple xs =>
    simp [pyIter] at h; subst h
    have := psizeL_mem hx; simp [psize]; omega
  | namedtuple ty xs =>
    simp [pyIter] at h; subst h
    have := psizeL_mem hx; simp [psize]; omega
  | mapping ty es =>
    simp [pyIter] at h; subst h
    obtain ⟨e, _, rfl⟩ := List.mem_map.mp hx
    simp [psize]; omega
  | int n => simp [pyIter] at h
  | none => simp [pyIter] at h

theorem iterAll_forall₂ {vs : List PyVal} {cols : List (List PyVal)}
    (h : iterAll vs = Option.some cols) :
    List.Forall₂ (fun v l => pyIter v = Option.some l) vs cols := by
  induction vs generalizing cols with
  | nil => simp [iterAll] at h; subst h; exact List.Forall₂.nil
  | cons v vs ih =>
    simp only [iterAll] at h
    cases hv : pyIter v with
    | none => rw [hv] at h; simp at h
    | some l =>
      rw [hv] at h
      cases hvs : iterAll vs with
      | none => rw [hvs] at h; simp at h
      | some ls =>
        rw [hvs] at h
        simp at h; subst h
        exact List.Forall₂.cons hv (ih hvs)

theorem getD_psize {v : PyVal} {l : List PyVal} (h : pyIter v = Option.some l) (i : Nat) :
    psize (l.getD i PyVal.none) ≤ psize v := by
  by_cases hi : i < l.length
  · have hg : l.getD i PyVal.none = l[i] := List.getD_eq_getElem l PyVal.none hi
    rw [hg]
    exact pyIter_psize h (List.getElem_mem hi)
  · rw [List.getD_eq_default _ _ (Nat.le_of_not_lt hi)]
    exact psize_pos v

theorem row_psize {vs : List PyVal} {cols : List (List PyVal)}
    (h : List.Forall₂ (fun v l => pyIter v = Option.some l) vs cols) (i : Nat) :
    psizeL (cols.map (fun l => l.getD i PyVal.none)) ≤ psizeL vs := by
  induction h with
  | nil => simp [psizeL]
  | cons hv _ ih =>
    simp only [List.map_cons, psizeL]
    have := getD_psize hv i
    omega

theorem pyZip_row_psize {vs : List PyVal} {rows : List (List PyVal)}
    (h : pyZip vs = Option.some rows) {r : List PyVal} (hr : r ∈ rows) :
    psizeL r ≤ psizeL vs := by
  unfold pyZip at h
  cases hc : iterAll vs with
  | none => rw [hc] at h; simp at h
  | some cols =>
    rw [hc] at h; simp at h; subst h
    unfold pyRows at hr
    obtain ⟨i, _, rfl⟩ := List.mem_map.mp hr
    exact row_psize (iterAll_forall₂ hc) i

/-- Run a list of already-evaluated `Except` computations in order,
collecting the results; stops at the first error. This is the effect of
a Python list comprehension whose body may raise. -/
def seqE : List (Except String PyVal) → Except String (List PyVal)
  | [] => Except.ok []
  | Except.error e :: _ => Except.error e
  | Except.ok v :: xs =>
    match seqE xs with
    | Except.ok vs => Except.ok (v :: vs)
    | Except.error e => Except.error e

/-- Build one sample of an uncollated mapping batch:
`batch_type(dict(zip(batch, default_uncollate(t))))`, given the keys of
the batch and the outcome of `default_uncollate` on the row tuple `t`.
`zip` iterates its second argument and truncates to the shorter side;
a raise in the recursive call propagates. -/
def dictRow (ty : String) (keys : List String) (u : Except String PyVal) :
    Except String PyVal :=
  match u with
  | Except.ok v =>
    match pyIter v with
    | Option.some us => Except.ok (PyVal.mapping ty (List.zip keys us))
    | Option.none => Except.error "TypeError: zip argument is not iterable"
  | Except.error e => Except.error e

/-- Build one sample of an uncollated namedtuple batch:
`batch_type(*default_uncollate(sample))`, given the outcome of
`default_uncollate` on the row tuple `sample`. The star unpacking
iterates the result; a raise in the recursive call propagates. -/
def ntupRow (ty : String) (u : Except String PyVal) : Except String PyVal :=
  match u with
  | Except.ok v =>
    match pyIter v with
    | Option.some us => Except.ok (PyVal.namedtuple ty us)
    | Option.none => Except.error "TypeError: argument after star is not iterable"
  | Except.error e => Except.error e

/-- `default_uncollate` from `flash/data/batch.py`: uncollate a batch
into samples. A tensor is unbound along dimension 0; a mapping becomes
one mapping of the same type per row of `zip(*batch.values())`, each
row-tuple recursively uncollated and re-zipped with the keys; a
namedtuple becomes one namedtuple of the same type per row of
`zip(*batch)`, each row-tuple recursively uncollated and unpacked into
the constructor; any other non-string sequence is uncollated
elementwise into a list; everything else is returned unchanged. -/
def default_uncollate (batch : PyVal) : Except String PyVal :=
  match batch with
  | .tensor t =>
    match Tensor.unbind t with
    | Option.some slices => Except.ok (.pylist (slices.map PyVal.tensor))
    | Option.none => Except.error "IndexError: dimension 0 on a 0-d tensor"
  | .mapping ty es =>
    match h : pyZip (es.map Prod.snd) with
    | Option.some rows =>
      (seqE (rows.attach.map (fun r =>
        dictRow ty (es.map Prod.fst) (default_uncollate (.pytuple r.1))))).map PyVal.pylist
    | Option.none => Except.error "TypeError: zip argument is not iterable"
  | .namedtuple ty xs =>
    match h : pyZip xs with
    | Option.some rows =>
      (seqE (rows.attach.map (fun r =>
        ntupRow ty (default_uncollate (.pytuple r.1))))).map PyVal.pylist
    | Option.none => Except.error "TypeError: zip argument is not iterable"
  | .pylist xs => (seqE (xs.attach.map (fun x => default_uncollate x.1))).map PyVal.pylist
  | .pytuple xs => (seqE (xs.attach.map (fun x => default_uncollate x.1))).map PyVal.pylist
  | .str s => Except.ok (.str s)
  | .int n => Except.ok (.int n)
  | .none => Except.ok .none
termination_by psize batch
decreasing_by
· simp only [psize]
  have h1 := pyZip_row_psize h r.2
  rw [psizeE_map_snd] at h1
  omega
· simp only [psize]
  have h1 := pyZip_row_psize h r.2
  omega
· simp only [psize]
  have h1 := psizeL_mem x.2
  omega
· simp only [psize]
  have h1 := psizeL_mem x.2
  omega

theorem uncollate_tensor (t : Tensor) :
    default_uncollate (.tensor t) =
      match Tensor.unbind t with
      | Option.some slices => Except.ok (.pylist (slices.map PyVal.tensor))
      | Option.none => Except.error "IndexError: dimension 0 on a 0-d tensor" := by
  rw [default_uncollate]

theorem uncollate_mapping (ty : String) (es : List (String × PyVal)) :
    default_uncollate (.mapping ty es) =
      match pyZip (es.map Prod.snd) with
      | Option.some rows =>
        (seqE (rows.map (fun row =>
          dictRow ty (es.map Prod.fst) (default_uncollate (.pytuple row))))).map PyVal.pylist
      | Option.none => Except.error "TypeError: zip argument is not iterable" := by
  rw [default_uncollate]
  split
  · rename_i rows h
    rw [h]
    rw [List.attach_map_val rows
      (fun row => dictRow ty (es.map Prod.fst) (default_uncollate (.pytuple row)))]
  · rename_i h
    rw [h]

theorem uncollate_namedtuple (ty : String) (xs : List PyVal) :
    default_uncollate (.namedtuple ty xs) =
      match pyZip xs with
      | Option.some rows =>
        (seqE (rows.map (fun row => ntupRow ty (default_uncollate (.pytuple row))))).map PyVal.pylist
      | Option.none => Except.error "TypeError: zip argument is not iterable" := by
  rw [default_uncollate]
  split
  · rename_i rows h
    rw [h]
    rw [List.attach_map_val rows (fun row => ntupRow ty (default_uncollate (.pytuple row)))]
  · rename_i h
    rw [h]

theorem uncollate_pylist (xs : List PyVal) :
    default_uncollate (.pylist xs) = (seqE (xs.map default_uncollate)).map PyVal.pylist := by
  rw [default_uncollate, List.attach_map_val xs default_uncollate]

theorem uncollate_pytuple (xs : List PyVal) :
    default_uncollate (.pytuple xs) = (seqE (xs.map default_uncollate)).map PyVal.pylist := by
  rw [default_uncollate, List.attach_map_val xs default_uncollate]

theorem uncollate_str (s : String) : default_uncollate (.str s) = Except.ok (.str s) := by
  rw [default_uncollate]

theorem uncollate_int (n : Int) : default_uncollate (.int n) = Except.ok (.int n) := by
  rw [default_uncollate]

theorem uncollate_none : default_uncollate PyVal.none = Except.ok PyVal.none := by
  rw [default_uncollate]

mutual

/-- Modelled from the spec: `_contains_any_tensor` is imported by
`batch.py` from `flash/data/utils.py`, whose source is not part of this
repository slice. Per its use in the pipeline's tensor assertion it
reports whether a value is a tensor or a list, tuple or dict that
recursively holds one. -/
def containsAnyTensor : PyVal → Bool
  | .tensor _ => true
  | .str _ => false
  | .pylist xs => containsAnyTensorL xs
  | .pytuple xs => containsAnyTensorL xs
  | .namedtuple _ xs => containsAnyTensorL xs
  | .mapping _ es => containsAnyTensorE es
  | .int _ => false
  | .none => false

/-- Whether any value of a list contains a tensor. -/
def containsAnyTensorL : List PyVal → Bool
  | [] => false
  | x :: xs => containsAnyTensor x || containsAnyTensorL xs

/-- Whether any value of an entry list contains a tensor. -/
def containsAnyTensorE : List (String × PyVal) → Bool
  | [] => false
  | e :: es => containsAnyTensor e.2 || containsAnyTensorE es

end

/-- Modelled from the spec: `convert_to_modules` is imported by
`batch.py` from `flash/data/utils.py`, whose source is not part of this
repository slice. It wraps a user-supplied transform callable so it can
be registered on a module; calling the wrapper calls the callable
unchanged, so at the level of functions it is the identity. -/
def convert_to_modules (f : PyVal → PyVal) : PyVal → PyVal := f

/-- The `_Sequential` module of `flash/data/batch.py`: chains
`pre_tensor_transform`, `to_tensor_transform` and
`post_tensor_transform` for the preprocessor's per-sample transform. -/
structure _Sequential where
  pre_tensor_transform : PyVal → PyVal
  to_tensor_transform : PyVal → PyVal
  post_tensor_transform : PyVal → PyVal
  assert_contains_tensor : Bool

/-- `_Sequential.__init__`: stores the three transforms (wrapped by
`convert_to_modules`) and the assertion flag. -/
def _Sequential.init (pre_tensor_transform to_tensor_transform post_tensor_transform : PyVal → PyVal)
    (assert_contains_tensor : Bool) : _Sequential :=
  ⟨convert_to_modules pre_tensor_transform, convert_to_modules to_tensor_transform,
    convert_to_modules post_tensor_transform, assert_contains_tensor⟩

/-- `_Sequential.forward`: apply `pre_tensor_transform`, then
`to_tensor_transform`, raise `MisconfigurationException` when the
assertion flag is set and the intermediate value holds no tensor, then
apply `post_tensor_transform`. -/
def _Sequential.forward (m : _Sequential) (sample : PyVal) : Except String PyVal := do
  let sample := m.pre_tensor_transform sample
  let sample := m.to_tensor_transform sample
  if m.assert_contains_tensor then
    if !(containsAnyTensor sample) then
      throw "MisconfigurationException: when to_tensor_transform is overriden, DataPipeline expects the outputs to be tensors"
  return m.post_tensor_transform sample

/-- The `_PreProcessor` module of `flash/data/batch.py`. The `stage`
attribute is metadata never read by `forward` and is omitted. -/
structure _PreProcessor where
  collate_fn : PyVal → PyVal
  per_sample_transform : PyVal → PyVal
  per_batch_transform : PyVal → PyVal
  apply_per_sample_transform : Bool

/-- `_PreProcessor.__init__`: stores the collate function, the two
transforms (wrapped by `convert_to_modules`) and the
`apply_per_sample_transform` flag. -/
def _PreProcessor.init (collate_fn per_sample_transform per_batch_transform : PyVal → PyVal)
    (apply_per_sample_transform : Bool) : _PreProcessor :=
  ⟨convert_to_modules collate_fn, convert_to_modules per_sample_transform,
    convert_to_modules per_batch_transform, apply_per_sample_transform⟩

/-- `_PreProcessor.forward`: when `apply_per_sample_transform` is set,
map `per_sample_transform` over the samples (a `TypeError` when the
input is not iterable), rebuild the list — `type(samples)(samples)` is
`list` applied to a list, leaving it unchanged — and collate; in every
case finish with `per_batch_transform`. -/
def _PreProcessor.forward (m : _PreProcessor) (samples : PyVal) : Except String PyVal := do
  let samples ←
    if m.apply_per_sample_transform then
      match pyIter samples with
      | Option.some xs => pure (m.collate_fn (.pylist (xs.map m.per_sample_transform)))
      | Option.none => throw "TypeError: object is not iterable"
    else pure samples
  return m.per_batch_transform samples

/-- `type(x)(elems)`: rebuild a container of the runtime type of `x`
from a list of elements, as `_PostProcessor.forward` does with the
uncollated batch. Only the list and tuple constructors accept a plain
list of samples; handing one to the remaining types' constructors is a
`TypeError` (the pipeline never does). -/
def pySameType (proto : PyVal) (elems : List PyVal) : Except String PyVal :=
  match proto with
  | .pylist _ => Except.ok (.pylist elems)
  | .pytuple _ => Except.ok (.pytuple elems)
  | _ => Except.error "TypeError: constructor does not accept a list of samples"

/-- The `_PostProcessor` module of `flash/data/batch.py`. Its
`uncollate_fn` (by default `default_uncollate`) may raise, so it is
embedded fallibly. -/
structure _PostProcessor where
  uncollate_fn : PyVal → Except String PyVal
  per_batch_transform : PyVal → PyVal
  per_sample_transform : PyVal → PyVal
  save_fn : Option (PyVal → PyVal)
  save_per_sample : Bool

/-- `_PostProcessor.forward`: apply `per_batch_transform`, uncollate,
map `per_sample_transform` over the samples (a `TypeError` when the
uncollated value is not iterable) and rebuild a container of the
uncollated value's type. With a `save_fn` the function saves — file
output is not modelled — and implicitly returns `None`; without one it
returns the rebuilt container. -/
def _PostProcessor.forward (m : _PostProcessor) (batch : PyVal) : Except String PyVal := do
  let uncollated ← m.uncollate_fn (m.per_batch_transform batch)
  match pyIter uncollated with
  | Option.none => throw "TypeError: object is not iterable"
  | Option.some samples =>
    let final_preds ← pySameType uncollated (samples.map m.per_sample_transform)
    match m.save_fn with
    | Option.some _ => return PyVal.none
    | Option.none => return final_preds

theorem seqE_map_ok {α : Type} (l : List α) (f : α → Except String PyVal) (g : α → PyVal)
    (h : ∀ a ∈ l, f a = Except.ok (g a)) : seqE (l.map f) = Except.ok (l.map g) := by
  induction l with
  | nil => simp [seqE]
  | cons a l ih =>
    have ha := h a (List.mem_cons_self a l)
    have hl := ih (fun b hb => h b (List.mem_cons_of_mem a hb))
    simp only [List.map_cons, seqE, ha, hl]

theorem seqE_ok_forall₂ {xs : List (Except String PyVal)} {l : List PyVal}
    (h : seqE xs = Except.ok l) : List.Forall₂ (fun x y => x = Except.ok y) xs l := by
  induction xs generalizing l with
  | nil =>
    simp only [seqE] at h
    cases h
    exact List.Forall₂.nil
  | cons x xs ih =>
    cases x with
    | error e => simp [seqE] at h
    | ok v =>
      simp only [seqE] at h
      cases hs : seqE xs with
      | error e => rw [hs] at h; simp at h
      | ok vs =>
        rw [hs] at h
        simp at h
        subst h
        exact List.Forall₂.cons rfl (ih hs)

theorem unbind_eq (t : Tensor) (n : Nat) (s : List Nat) (h : t.shape = n :: s) :
    Tensor.unbind t = Option.some ((List.range n).map (fun i => t.slice0 i)) := by
  unfold Tensor.unbind Tensor.slice0
  rw [h]
  simp

theorem minLen_const (cols : List (List PyVal)) (n : Nat) (hne : cols ≠ [])
    (h : ∀ c ∈ cols, c.length = n) : minLen cols = n := by
  induction cols with
  | nil => cases hne rfl
  | cons c cols ih =>
    cases cols with
    | nil => simp [minLen, h c (List.mem_cons_self c [])]
    | cons c' cols' =>
      have h1 := h c (List.mem_cons_self c _)
      have h2 := ih (by simp) (fun d hd => h d (List.mem_cons_of_mem c hd))
      simp [minLen] at h2 ⊢
      rw [h1, h2]
      exact Nat.min_self n

theorem getD_map_range (g : Nat → PyVal) (n i : Nat) (hi : i < n) :
    ((List.range n).map g).getD i PyVal.none = g i := by
  have hlen : i < ((List.range n).map g).length := by simp [hi]
  rw [List.getD_eq_getElem _ _ hlen]
  simp

theorem iterAll_map_some {α : Type} (l : List α) (f : α → PyVal) (g : α → List PyVal)
    (h : ∀ a ∈ l, pyIter (f a) = Option.some (g a)) :
    iterAll (l.map f) = Option.some (l.map g) := by
  induction l with
  | nil => simp [iterAll]
  | cons a l ih =>
    have ha := h a (List.mem_cons_self a l)
    have hl := ih (fun b hb => h b (List.mem_cons_of_mem a hb))
    simp only [List.map_cons, iterAll, ha, hl]

theorem flatten_chunk (ds : List (List Int)) (m : Nat) (h : ∀ d ∈ ds, d.length = m)
    (i : Nat) (hi : i < ds.length) :
    (ds.flatten.drop (i * m)).take m = ds.get ⟨i, hi⟩ := by
  induction ds generalizing i with
  | nil => simp at hi
  | cons d ds ih =>
    have hd := h d (List.mem_cons_self d ds)
    cases i with
    | zero =>
      simp only [List.flatten_cons, Nat.zero_mul, List.drop_zero]
      rw [← hd, List.take_left]
      rfl
    | succ j =>
      have harith : (j + 1) * m = d.length + j * m := by rw [hd]; ring
      simp only [List.flatten_cons]
      rw [harith, ← List.drop_drop, List.drop_left]
      exact ih (fun e he => h e (List.mem_cons_of_mem d he)) j (Nat.lt_of_succ_lt_succ hi)

/-- Claim C3: a tensor batch with first dimension `n` uncollates into
the list of its `n` slices along dimension 0, in order. -/
theorem claim_C3 (t : Tensor) (n : Nat) (s : List Nat) (h : t.shape = n :: s) :
    default_uncollate (.tensor t) =
      Except.ok (.pylist ((List.range n).map (fun i => PyVal.tensor (t.slice0 i)))) := by
  rw [uncollate_tensor, unbind_eq t n s h]
  simp

/-- Witness for claim C3 at the concrete batch `[[3], [4]]` of shape `[2, 1]`. -/
theorem claim_C3_witness :
    (Tensor.mk [2, 1] [3, 4]).shape = 2 :: [1] ∧
    default_uncollate (.tensor (Tensor.mk [2, 1] [3, 4])) =
      Except.ok (.pylist ((List.range 2).map
        (fun i => PyVal.tensor ((Tensor.mk [2, 1] [3, 4]).slice0 i)))) :=
  ⟨rfl, claim_C3 (Tensor.mk [2, 1] [3, 4]) 2 [1] rfl⟩

/-- Claim C1: uncollating the stack of a non-empty list of equally
shaped tensors returns exactly the original tensors, in order —
`default_uncollate` is a left inverse of tensor collation. -/
theorem claim_C1 (ts : List Tensor) (s : List Nat) (hne : ts ≠ [])
    (hsh : ∀ t ∈ ts, t.shape = s) (hwf : ∀ t ∈ ts, t.data.length = s.prod) :
    default_uncollate (.tensor (Tensor.stack ts)) = Except.ok (.pylist (ts.map PyVal.tensor)) := by
  cases ts with
  | nil => cases hne rfl
  | cons t0 ts' =>
    have hstack : Tensor.stack (t0 :: ts')
        = Tensor.mk ((t0 :: ts').length :: s) ((t0 :: ts').map Tensor.data).flatten := by
      simp [Tensor.stack, hsh t0 (List.mem_cons_self t0 ts')]
    have hs0 : (Tensor.stack (t0 :: ts')).shape = (t0 :: ts').length :: s := by rw [hstack]
    rw [uncollate_tensor, unbind_eq _ _ _ hs0]
    have hlist : (List.range (t0 :: ts').length).map (fun i => (Tensor.stack (t0 :: ts')).slice0 i)
        = t0 :: ts' := by
      refine List.ext_getElem (by simp) (fun i h1 h2 => ?_)
      simp only [List.getElem_map, List.getElem_range]
      have hshapei : (t0 :: ts')[i].shape = s := hsh _ (List.getElem_mem h2)
      have hdata : (((t0 :: ts').map Tensor.data).flatten.drop (i * s.prod)).take s.prod
          = (t0 :: ts')[i].data := by
        have hch := flatten_chunk ((t0 :: ts').map Tensor.data) s.prod
          (by intro d hd; obtain ⟨u, hu, rfl⟩ := List.mem_map.mp hd; exact hwf u hu)
          i (by simpa using h2)
        rw [hch]
        simp only [List.get_eq_getElem, List.getElem_map]
      rw [hstack]
      simp only [Tensor.slice0, List.tail_cons]
      rw [hdata, ← hshapei]
    rw [hlist]

/-- Witness for claim C1 at the concrete samples `[3]` and `[4]`. -/
theorem claim_C1_witness :
    ([Tensor.mk [1] [3], Tensor.mk [1] [4]] ≠ ([] : List Tensor)) ∧
    (∀ t ∈ [Tensor.mk [1] [3], Tensor.mk [1] [4]], t.shape = [1]) ∧
    (∀ t ∈ [Tensor.mk [1] [3], Tensor.mk [1] [4]], t.data.length = List.prod [1]) ∧
    default_uncollate (.tensor (Tensor.stack [Tensor.mk [1] [3], Tensor.mk [1] [4]]))
      = Except.ok (.pylist ([Tensor.mk [1] [3], Tensor.mk [1] [4]].map PyVal.tensor)) :=
  ⟨by decide, by decide, by decide,
    claim_C1 [Tensor.mk [1] [3], Tensor.mk [1] [4]] [1] (by decide) (by decide) (by decide)⟩

/-- Counterexample to claim C2: on the mapping batch
`{"a": tensor([5, 7])}` — values of first dimension 2 — the claim
promises `[{"a": tensor(5)}, {"a": tensor(7)}]`, but `default_uncollate`
recursively uncollates each 0-dimensional slice and so raises the
`IndexError` of `torch.unbind` instead of returning. -/
theorem claim_C2_counterexample :
    default_uncollate (.mapping "dict" [("a", .tensor (Tensor.mk [2] [5, 7]))])
        = Except.error "IndexError: dimension 0 on a 0-d tensor" ∧
    default_uncollate (.mapping "dict" [("a", .tensor (Tensor.mk [2] [5, 7]))])
        ≠ Except.ok (.pylist [.mapping "dict" [("a", .tensor (Tensor.mk [] [5]))],
                              .mapping "dict" [("a", .tensor (Tensor.mk [] [7]))]]) := by
  constructor
  · simp [uncollate_mapping, pyZip, iterAll, pyIter, Tensor.unbind, pyRows, minLen, seqE,
      uncollate_pytuple, uncollate_tensor, dictRow, List.range_succ, Except.map, List.take]
  · simp [uncollate_mapping, pyZip, iterAll, pyIter, Tensor.unbind, pyRows, minLen, seqE,
      uncollate_pytuple, uncollate_tensor, dictRow, List.range_succ, Except.map, List.take]

/-- Claim C2 as amended: for a non-empty mapping batch whose values are
tensors of common shape `n :: m :: s` (first dimension `n` and at least
two dimensions), `default_uncollate` returns `n` mappings of the same
type and keys, the `i`-th sending key `k` not to the slice
`batch[k][i]` itself but to its recursive uncollation — the list of the
`m` sub-slices `batch[k][i][j]`. For one-dimensional values the
function instead raises `IndexError`. -/
theorem claim_C2_amended (ty : String) (es : List (String × Tensor)) (n m : Nat) (s : List Nat)
    (hne : es ≠ [])
    (hsh : ∀ p ∈ es, (Prod.snd p).shape = n :: m :: s) :
    default_uncollate (.mapping ty (es.map (fun p => (p.1, PyVal.tensor p.2)))) =
      Except.ok (.pylist ((List.range n).map (fun i =>
        PyVal.mapping ty (es.map (fun p =>
          (p.1, PyVal.pylist ((List.range m).map (fun j =>
            PyVal.tensor ((p.2.slice0 i).slice0 j))))))))) := by
  have hslice : ∀ p ∈ es, ∀ i : Nat, (Tensor.slice0 p.2 i).shape = m :: s := by
    intro p hp i
    simp [Tensor.slice0, hsh p hp]
  rw [uncollate_mapping]
  have hvals : (es.map (fun p => (p.1, PyVal.tensor p.2))).map Prod.snd
      = es.map (fun p => PyVal.tensor p.2) := by
    simp [List.map_map, Function.comp]
  have hkeys : (es.map (fun p => (p.1, PyVal.tensor p.2))).map Prod.fst
      = es.map Prod.fst := by
    simp [List.map_map, Function.comp]
  have hiter : iterAll (es.map (fun p => PyVal.tensor p.2))
      = Option.some (es.map (fun p => (List.range n).map (fun i => PyVal.tensor (p.2.slice0 i)))) := by
    refine iterAll_map_some es _ _ (fun p hp => ?_)
    simp [pyIter, unbind_eq p.2 n (m :: s) (hsh p hp), List.map_map, Function.comp]
  have hcols : ∀ c ∈ es.map (fun p => (List.range n).map (fun i => PyVal.tensor (p.2.slice0 i))),
      c.length = n := by
    intro c hc
    obtain ⟨p, _, rfl⟩ := List.mem_map.mp hc
    simp
  have hrows : pyRows (es.map (fun p => (List.range n).map (fun i => PyVal.tensor (p.2.slice0 i))))
      = (List.range n).map (fun i => es.map (fun p => PyVal.tensor (p.2.slice0 i))) := by
    unfold pyRows
    rw [minLen_const _ n (by simpa using hne) hcols]
    refine List.map_congr_left (fun i hi => ?_)
    have hilt : i < n := List.mem_range.mp hi
    rw [List.map_map]
    refine List.map_congr_left (fun p _ => ?_)
    simp only [Function.comp_apply]
    exact getD_map_range _ n i hilt
  have hrow : ∀ i : Nat, i < n →
      default_uncollate (.pytuple (es.map (fun p => PyVal.tensor (p.2.slice0 i))))
        = Except.ok (.pylist (es.map (fun p =>
            PyVal.pylist ((List.range m).map (fun j => PyVal.tensor ((p.2.slice0 i).slice0 j)))))) := by
    intro i _
    rw [uncollate_pytuple, List.map_map]
    have hpt := seqE_map_ok es (fun p => default_uncollate (PyVal.tensor (p.2.slice0 i)))
      (fun p => PyVal.pylist ((List.range m).map (fun j => PyVal.tensor ((p.2.slice0 i).slice0 j))))
      (fun p hp => by
        dsimp only
        rw [uncollate_tensor, unbind_eq (p.2.slice0 i) m s (hslice p hp i)]
        simp [List.map_map, Function.comp])
    simp only [Function.comp_def] at hpt ⊢
    rw [hpt]
    rfl
  simp only [pyZip, hvals, hiter, hrows, hkeys]
  rw [List.map_map]
  have hseq := seqE_map_ok (List.range n)
    (fun i => dictRow ty (es.map Prod.fst)
      (default_uncollate (.pytuple (es.map (fun p => PyVal.tensor (p.2.slice0 i))))))
    (fun i => PyVal.mapping ty (es.map (fun p =>
      (p.1, PyVal.pylist ((List.range m).map (fun j => PyVal.tensor ((p.2.slice0 i).slice0 j)))))))
    (fun i hi => by
      dsimp only
      rw [hrow i (List.mem_range.mp hi)]
      simp only [dictRow, pyIter]
      rw [List.zip_map'])
  simp only [Function.comp_def] at hseq ⊢
  rw [hseq]
  rfl

/-- Witness for the amended claim C2 at the concrete batch
`{"a": tensor([[5, 7], [8, 9]])}` of shape `[2, 2]`. -/
theorem claim_C2_amended_witness :
    ([(("a" : String), Tensor.mk [2, 2] [5, 7, 8, 9])] ≠ []) ∧
    (∀ p ∈ [(("a" : String), Tensor.mk [2, 2] [5, 7, 8, 9])], (Prod.snd p).shape = 2 :: 2 :: []) ∧
    default_uncollate (.mapping "dict"
        ([(("a" : String), Tensor.mk [2, 2] [5, 7, 8, 9])].map (fun p => (p.1, PyVal.tensor p.2))))
      = Except.ok (.pylist ((List.range 2).map (fun i =>
          PyVal.mapping "dict" ([(("a" : String), Tensor.mk [2, 2] [5, 7, 8, 9])].map (fun p =>
            (p.1, PyVal.pylist ((List.range 2).map (fun j =>
              PyVal.tensor ((p.2.slice0 i).slice0 j))))))))) :=
  ⟨by decide, by decide,
    claim_C2_amended "dict" [(("a" : String), Tensor.mk [2, 2] [5, 7, 8, 9])] 2 2 []
      (by decide) (by decide)⟩

theorem seqE_ok_mem {xs : List (Except String PyVal)} {l : List PyVal}
    (h : seqE xs = Except.ok l) {y : PyVal} (hy : y ∈ l) : Except.ok y ∈ xs := by
  induction xs generalizing l with
  | nil =>
    simp only [seqE] at h
    cases h
    cases hy
  | cons x xs ih =>
    cases x with
    | error e => simp [seqE] at h
    | ok v =>
      simp only [seqE] at h
      cases hs : seqE xs with
      | error e => rw [hs] at h; simp at h
      | ok vs =>
        rw [hs] at h
        simp at h
        subst h
        rcases List.mem_cons.mp hy with h | h
        · subst h; exact List.mem_cons_self _ _
        · exact List.mem_cons_of_mem _ (ih hs h)

theorem mapPylist_ok {e : Except String (List PyVal)} {r : PyVal}
    (h : e.map PyVal.pylist = Except.ok r) : ∃ l, e = Except.ok l ∧ r = PyVal.pylist l := by
  cases e with
  | error msg => simp [Except.map] at h
  | ok l => refine ⟨l, rfl, ?_⟩; simpa [Except.map] using h.symm

theorem dictRow_ok {ty : String} {keys : List String} {u : Except String PyVal} {y : PyVal}
    (h : dictRow ty keys u = Except.ok y) : ∃ es2, y = PyVal.mapping ty es2 := by
  cases u with
  | error e => simp [dictRow] at h
  | ok v =>
    simp only [dictRow] at h
    cases hv : pyIter v with
    | none => rw [hv] at h; simp at h
    | some us =>
      rw [hv] at h
      simp at h
      exact ⟨_, h.symm⟩

theorem ntupRow_ok {ty : String} {u : Except String PyVal} {y : PyVal}
    (h : ntupRow ty u = Except.ok y) : ∃ ys, y = PyVal.namedtuple ty ys := by
  cases u with
  | error e => simp [ntupRow] at h
  | ok v =>
    simp only [ntupRow] at h
    cases hv : pyIter v with
    | none => rw [hv] at h; simp at h
    | some us =>
      rw [hv] at h
      simp at h
      exact ⟨_, h.symm⟩

/-- Counterexample to claim C4: uncollating the tuple batch `(3,)`
produces a plain list, not a tuple — the batch's sequence type is not
preserved. -/
theorem claim_C4_counterexample :
    ¬ ∃ ys : List PyVal,
      default_uncollate (.pytuple [.int 3]) = Except.ok (.pytuple ys) := by
  intro ⟨ys, h⟩
  rw [uncollate_pytuple] at h
  simp [seqE, uncollate_int, Except.map] at h

/-- Claim C4 as amended: `default_uncollate` is type-preserving for
mappings (each returned sample is a mapping of the batch's type) and
namedtuples (each returned sample is a namedtuple of the batch's type),
but a non-string sequence batch — list or tuple — always comes back as
a plain list of uncollated elements, so among sequences only the list
type is preserved. -/
theorem claim_C4_amended :
    (∀ (ty : String) (es : List (String × PyVal)) (r : PyVal),
      default_uncollate (.mapping ty es) = Except.ok r →
        ∃ l, r = PyVal.pylist l ∧ ∀ x ∈ l, ∃ es2, x = PyVal.mapping ty es2) ∧
    (∀ (ty : String) (fs : List PyVal) (r : PyVal),
      default_uncollate (.namedtuple ty fs) = Except.ok r →
        ∃ l, r = PyVal.pylist l ∧ ∀ x ∈ l, ∃ ys, x = PyVal.namedtuple ty ys) ∧
    (∀ (zs : List PyVal) (r : PyVal),
      default_uncollate (.pylist zs) = Except.ok r → ∃ l, r = PyVal.pylist l) ∧
    (∀ (zs : List PyVal) (r : PyVal),
      default_uncollate (.pytuple zs) = Except.ok r → ∃ l, r = PyVal.pylist l) := by
  refine ⟨?_, ?_, ?_, ?_⟩
  · intro ty es r h
    rw [uncollate_mapping] at h
    cases hz : pyZip (es.map Prod.snd) with
    | none => rw [hz] at h; simp at h
    | some rows =>
      rw [hz] at h
      obtain ⟨l, hl, rfl⟩ := mapPylist_ok h
      refine ⟨l, rfl, fun x hx => ?_⟩
      have hmem := seqE_ok_mem hl hx
      obtain ⟨row, _, hrow⟩ := List.mem_map.mp hmem
      exact dictRow_ok hrow
  · intro ty fs r h
    rw [uncollate_namedtuple] at h
    cases hz : pyZip fs with
    | none => rw [hz] at h; simp at h
    | some rows =>
      rw [hz] at h
      obtain ⟨l, hl, rfl⟩ := mapPylist_ok h
      refine ⟨l, rfl, fun x hx => ?_⟩
      have hmem := seqE_ok_mem hl hx
      obtain ⟨row, _, hrow⟩ := List.mem_map.mp hmem
      exact ntupRow_ok hrow
  · intro zs r h
    rw [uncollate_pylist] at h
    obtain ⟨l, _, rfl⟩ := mapPylist_ok h
    exact ⟨l, rfl⟩
  · intro zs r h
    rw [uncollate_pytuple] at h
    obtain ⟨l, _, rfl⟩ := mapPylist_ok h
    exact ⟨l, rfl⟩

/-- Witness for the amended claim C4, applying its list clause to the
concrete batch `[3]`, whose uncollation is the plain list `[3]`. -/
theorem claim_C4_amended_witness :
    ∃ l, PyVal.pylist [PyVal.int 3] = PyVal.pylist l :=
  claim_C4_amended.2.2.1 [PyVal.int 3] (PyVal.pylist [PyVal.int 3])
    (by rw [uncollate_pylist]; simp [seqE, uncollate_int, Except.map])

/-- Claim C10: a batch that is neither a tensor, a mapping, a
namedtuple nor a non-string sequence — a string, an integer or `None` —
is returned unchanged; in particular a string is not split into
characters. -/
theorem claim_C10 :
    (∀ s : String, default_uncollate (.str s) = Except.ok (.str s)) ∧
    (∀ n : Int, default_uncollate (.int n) = Except.ok (.int n)) ∧
    default_uncollate PyVal.none = Except.ok PyVal.none :=
  ⟨uncollate_str, uncollate_int, uncollate_none⟩

/-- The identity transform, standing in for a user-supplied callable in
concrete instantiations. -/
def idT : PyVal → PyVal := fun v => v

/-- `_PostProcessor.__init__`: stores the uncollate function, the two
transforms and the saving configuration (wrapped by
`convert_to_modules`). -/
def _PostProcessor.init (uncollate_fn : PyVal → Except String PyVal)
    (per_batch_transform per_sample_transform : PyVal → PyVal)
    (save_fn : Option (PyVal → PyVal)) (save_per_sample : Bool) : _PostProcessor :=
  ⟨uncollate_fn, convert_to_modules per_batch_transform, convert_to_modules per_sample_transform,
    save_fn.map convert_to_modules, save_per_sample⟩

/-- Counterexample to claim C5: with `assert_contains_tensor` set and
identity transforms, `_Sequential.forward` on the tensor-free sample
`3` raises `MisconfigurationException` instead of returning the
composed transforms' value `3`. -/
theorem claim_C5_counterexample :
    (_Sequential.init idT idT idT true).forward (.int 3)
        = Except.error "MisconfigurationException: when to_tensor_transform is overriden, DataPipeline expects the outputs to be tensors" ∧
    (_Sequential.init idT idT idT true).forward (.int 3) ≠ Except.ok (.int 3) := by
  constructor
  · simp [_Sequential.init, _Sequential.forward, convert_to_modules, containsAnyTensor, idT,
      throw, throwThe, MonadExceptOf.throw, Functor.map, Except.map, pure, Except.pure, bind, Bind.bind, Except.bind]
  · simp [_Sequential.init, _Sequential.forward, convert_to_modules, containsAnyTensor, idT,
      throw, throwThe, MonadExceptOf.throw, Functor.map, Except.map, pure, Except.pure, bind, Bind.bind, Except.bind]

/-- Claim C5 as amended: whenever the contains-tensor assertion does
not fire — in particular whenever `assert_contains_tensor` is false —
`_Sequential.forward` returns
`post_tensor_transform(to_tensor_transform(pre_tensor_transform(sample)))`,
the three transforms applied once each in that fixed order. -/
theorem claim_C5_amended (m : _Sequential) (sample : PyVal)
    (h : m.assert_contains_tensor = false ∨
      containsAnyTensor (m.to_tensor_transform (m.pre_tensor_transform sample)) = true) :
    m.forward sample
      = Except.ok (m.post_tensor_transform (m.to_tensor_transform (m.pre_tensor_transform sample))) := by
  unfold _Sequential.forward
  rcases h with h | h
  · simp [h, throw, throwThe, MonadExceptOf.throw, Functor.map, Except.map, pure, Except.pure, bind, Bind.bind, Except.bind]
  · simp [h, throw, throwThe, MonadExceptOf.throw, Functor.map, Except.map, pure, Except.pure, bind, Bind.bind, Except.bind]

/-- Witness for the amended claim C5 with identity transforms, no
assertion, and the sample `3`. -/
theorem claim_C5_amended_witness :
    ((_Sequential.init idT idT idT false).assert_contains_tensor = false ∨
      containsAnyTensor ((_Sequential.init idT idT idT false).to_tensor_transform
        ((_Sequential.init idT idT idT false).pre_tensor_transform (.int 3))) = true) ∧
    (_Sequential.init idT idT idT false).forward (.int 3) = Except.ok (.int 3) :=
  ⟨Or.inl rfl, claim_C5_amended (_Sequential.init idT idT idT false) (.int 3) (Or.inl rfl)⟩

/-- Claim C8: `_Sequential.forward` raises exactly when
`assert_contains_tensor` is set and the value produced by
`to_tensor_transform(pre_tensor_transform(sample))` contains no tensor;
with the flag unset no sample is ever rejected. An error outcome
carries no transformed value, so `post_tensor_transform` is not applied
on that path. -/
theorem claim_C8 (m : _Sequential) (sample : PyVal) :
    (∃ e, m.forward sample = Except.error e) ↔
      (m.assert_contains_tensor = true ∧
        containsAnyTensor (m.to_tensor_transform (m.pre_tensor_transform sample)) = false) := by
  unfold _Sequential.forward
  cases ha : m.assert_contains_tensor
  · simp [throw, throwThe, MonadExceptOf.throw, Functor.map, Except.map, pure, Except.pure, bind, Bind.bind, Except.bind]
  · cases hc : containsAnyTensor (m.to_tensor_transform (m.pre_tensor_transform sample))
    · simp [hc, throw, throwThe, MonadExceptOf.throw, Functor.map, Except.map, pure, Except.pure, bind, Bind.bind, Except.bind]
    · simp [hc, throw, throwThe, MonadExceptOf.throw, Functor.map, Except.map, pure, Except.pure, bind, Bind.bind, Except.bind]

/-- Claim C6: with `apply_per_sample_transform` set,
`_PreProcessor.forward` maps `per_sample_transform` over the samples,
collates the resulting list with `collate_fn`, applies
`per_batch_transform` to the batch and returns it. -/
theorem claim_C6 (m : _PreProcessor) (xs : List PyVal) (h : m.apply_per_sample_transform = true) :
    m.forward (.pylist xs)
      = Except.ok (m.per_batch_transform (m.collate_fn (.pylist (xs.map m.per_sample_transform)))) := by
  unfold _PreProcessor.forward
  simp [h, pyIter, throw, throwThe, MonadExceptOf.throw, Functor.map, Except.map, pure, Except.pure, bind, Bind.bind, Except.bind]

/-- Witness for claim C6 with identity transforms on the sample list
`[1]`. -/
theorem claim_C6_witness :
    (_PreProcessor.init idT idT idT true).apply_per_sample_transform = true ∧
    (_PreProcessor.init idT idT idT true).forward (.pylist [.int 1])
      = Except.ok (.pylist [.int 1]) :=
  ⟨rfl, claim_C6 (_PreProcessor.init idT idT idT true) [.int 1] rfl⟩

/-- Claim C9: with `apply_per_sample_transform` unset,
`_PreProcessor.forward` skips the per-sample transform and `collate_fn`
and returns `per_batch_transform` of the untouched input. -/
theorem claim_C9 (m : _PreProcessor) (v : PyVal) (h : m.apply_per_sample_transform = false) :
    m.forward v = Except.ok (m.per_batch_transform v) := by
  unfold _PreProcessor.forward
  simp [h, throw, throwThe, MonadExceptOf.throw, Functor.map, Except.map, pure, Except.pure, bind, Bind.bind, Except.bind]

/-- Witness for claim C9 with identity transforms on the scalar input
`7`, which would not even be iterable. -/
theorem claim_C9_witness :
    (_PreProcessor.init idT idT idT false).apply_per_sample_transform = false ∧
    (_PreProcessor.init idT idT idT false).forward (.int 7) = Except.ok (.int 7) :=
  ⟨rfl, claim_C9 (_PreProcessor.init idT idT idT false) (.int 7) rfl⟩

/-- Claim C7: with no `save_fn`, `_PostProcessor.forward` applies
`per_batch_transform` to the batch, uncollates it with `uncollate_fn`,
maps `per_sample_transform` over the resulting samples and returns
them in a container of the same type as the uncollated value (a list
or tuple, the containers a list of samples can rebuild). -/
theorem claim_C7 (m : _PostProcessor) (batch : PyVal) (hs : m.save_fn = Option.none) :
    (∀ l, m.uncollate_fn (m.per_batch_transform batch) = Except.ok (.pylist l) →
      m.forward batch = Except.ok (.pylist (l.map m.per_sample_transform))) ∧
    (∀ l, m.uncollate_fn (m.per_batch_transform batch) = Except.ok (.pytuple l) →
      m.forward batch = Except.ok (.pytuple (l.map m.per_sample_transform))) := by
  constructor
  · intro l hu
    unfold _PostProcessor.forward
    rw [hu]
    simp [pyIter, pySameType, hs, throw, throwThe, MonadExceptOf.throw, Functor.map, Except.map, pure, Except.pure, bind, Bind.bind, Except.bind]
  · intro l hu
    unfold _PostProcessor.forward
    rw [hu]
    simp [pyIter, pySameType, hs, throw, throwThe, MonadExceptOf.throw, Functor.map, Except.map, pure, Except.pure, bind, Bind.bind, Except.bind]

/-- Witness for claim C7 with an identity uncollate function and
identity transforms on the list batch `[2]`. -/
theorem claim_C7_witness :
    (_PostProcessor.init Except.ok idT idT Option.none false).save_fn = Option.none ∧
    (_PostProcessor.init Except.ok idT idT Option.none false).uncollate_fn
      ((_PostProcessor.init Except.ok idT idT Option.none false).per_batch_transform
        (.pylist [.int 2])) = Except.ok (.pylist [.int 2]) ∧
    (_PostProcessor.init Except.ok idT idT Option.none false).forward (.pylist [.int 2])
      = Except.ok (.pylist [.int 2]) :=
  ⟨rfl, rfl,
    (claim_C7 (_PostProcessor.init Except.ok idT idT Option.none false)
      (.pylist [.int 2]) rfl).1 [.int 2] rfl⟩

end Flash
